import Mathlib

/-!
Verification of the TIA_Db layout compiler and buffer codec.

This file is a shallow embedding of the core of the repository:

* `resolve_data_types`, `join_name_parts`, `generate_struct_format`
  (from `TIA_Db/parser.py`),
* `S7DataBlock.fields_to_mapping`, `BufferMapping.__getitem__`,
  `BufferMapping.__setitem__` (from `TIA_Db/utlis.py`).

Modelling conventions:

* Python `bytearray`s are `List Nat`; a well-formed buffer has all entries
  below 256 (stated as a hypothesis where a proof needs it).
* Python byte strings produced by `struct.pack` are `List Nat` as well.
* Fallible Python operations (`KeyError` on a missing dict key,
  `struct.error` on an out-of-range value, `struct.error` on a short
  buffer slice) are modelled with `Option`: `none` is the raised
  exception.  In the code under study every buffer mutation is a single
  slice assignment performed after all fallible steps, so an exception
  always leaves the buffer untouched; `none` therefore also means "the
  buffer is unchanged".
* Python `float` values stored in `Real` (`f`) and `DReal` (`d`) fields
  are represented by their IEEE-754 bit patterns (a nonnegative integer
  below `2^32` resp. `2^64`): for a value exactly representable in the
  field's type, `struct.pack` writes precisely the big-endian bytes of
  that pattern and `struct.unpack` restores it, so the codec acts on
  patterns exactly as embedded here.
* The dynamically typed tree walked by `resolve_data_types` is the
  inductive `Node`.  Its constructors record which Python `isinstance`
  branch fires: `prim` is a `str` leaf, `struct` a `dict` without the
  array keys, `arr` a `dict` carrying `lower`/`upper`/`array_type` (with
  bounds already converted to integers and the element given by name, as
  the grammar's `Array [..] of "<type>"` produces), and `raw` any value
  that is neither `dict` nor `str` (the branch holding the `DTL`
  expansion).  `parse_db_file` feeds the resolver the output of
  `ParseResults.as_dict()`, whose leaves are Python strings, so a parsed
  type name - including the literal `DTL` - always arrives as `prim`.
* The resolver recurses through the type table without any cycle check;
  its Lean counterpart takes a fuel argument and returns `none` when the
  fuel runs out.  A result of `none` for every fuel means the Python
  recursion never returns (in CPython it dies with `RecursionError`).
-/

/-! ## Byte-level codec (`struct.pack` / `struct.unpack`) -/

/-- Width in bytes of a struct format character, as `struct.calcsize`
computes it for the characters the pipeline emits (`s7_dtype_mapping`
plus the packed-bool word `H`).  Unknown characters, on which
`struct.calcsize` raises, are given width 0 and rejected by the
encoder/decoder below. -/
def struct_calcsize (fmt : String) : Nat :=
  if fmt == "f" then 4
  else if fmt == "d" then 8
  else if fmt == "h" then 2
  else if fmt == "i" then 4
  else if fmt == "B" then 1
  else if fmt == "H" then 2
  else if fmt == "I" then 4
  else if fmt == "?" then 1
  else if fmt == "c" then 1
  else 0

/-- Format characters that `struct` encodes as signed two's-complement
integers (`h` = Int16, `i` = Int32). -/
def isSignedFmt (fmt : String) : Bool :=
  fmt == "h" || fmt == "i"

/-- Big-endian encoding of a natural number into `w` bytes (the byte
string `struct.pack` produces for an in-range value). -/
def toBE : Nat → Nat → List Nat
  | 0, _ => []
  | w + 1, v => toBE w (v / 256) ++ [v % 256]

/-- Big-endian decoding of a byte string into a natural number. -/
def fromBE (l : List Nat) : Nat :=
  l.foldl (fun acc b => acc * 256 + b) 0

/-- A Python value stored in or read from a data-block field: an `int`
(also carrying the bit patterns of `float`s, see the header) or a
`bool`. -/
inductive PyVal where
  | int (v : Int)
  | bool (b : Bool)
deriving DecidableEq

/-- Python truthiness, used by `__setitem__`'s `if value:`. -/
def truthy : PyVal → Bool
  | .int v => v != 0
  | .bool b => b

/-- The integer `struct.pack` receives for a numeric format (Python
`bool` is an `int` subclass: `True` packs as 1, `False` as 0). -/
def valueAsInt : PyVal → Int
  | .int v => v
  | .bool b => if b then 1 else 0

/-- The range check `struct.pack` applies for a format character: the
value representable in the field's type. -/
def representable (fmt : String) (v : Int) : Bool :=
  if isSignedFmt fmt then
    decide (-((2 : Int) ^ (8 * struct_calcsize fmt - 1)) ≤ v) &&
      decide (v < (2 : Int) ^ (8 * struct_calcsize fmt - 1))
  else
    decide (0 ≤ v) && decide (v < (2 : Int) ^ (8 * struct_calcsize fmt))

/-- `struct.pack(">" + fmt, value)`: big-endian, raising (`none`) on an
out-of-range value or an unknown format character.  Signed values are
stored as two's complement. -/
def encodeScalar (fmt : String) (value : PyVal) : Option (List Nat) :=
  if fmt == "?" then some [if truthy value then 1 else 0]
  else
    let w := struct_calcsize fmt
    if w == 0 then none
    else if representable fmt (valueAsInt value) then
      if isSignedFmt fmt then
        some (toBE w ((valueAsInt value) % (2 : Int) ^ (8 * w)).toNat)
      else
        some (toBE w (valueAsInt value).toNat)
    else none

/-- `struct.unpack(">" + fmt, bytes)[0]`: raises (`none`) when the slice
does not have exactly the format's width, and sign-extends the signed
formats. -/
def decodeScalar (fmt : String) (bs : List Nat) : Option PyVal :=
  if fmt == "?" then
    match bs with
    | [b] => some (.bool (b != 0))
    | _ => none
  else
    let w := struct_calcsize fmt
    if w == 0 then none
    else if bs.length == w then
      let n := fromBE bs
      if isSignedFmt fmt then
        some (.int (if n < 2 ^ (8 * w - 1) then (n : Int) else (n : Int) - (2 : Int) ^ (8 * w)))
      else
        some (.int (n : Int))
    else none

/-- Python `bytearray` slice assignment `buf[o : o + len(bs)] = bs`
(for the in-bounds writes the claims are about this replaces the slice
in place; like Python it appends when `o` reaches past the end). -/
def spliceBytes (buf : List Nat) (o : Nat) (bs : List Nat) : List Nat :=
  buf.take o ++ bs ++ buf.drop (o + bs.length)

/-! ## Type resolver (`parser.resolve_data_types`) -/

/-- A node of the dynamically typed tree `resolve_data_types` walks; see
the header for the correspondence with the Python `isinstance` tests. -/
inductive Node where
  | prim (s : String)
  | struct (fields : List (String × Node))
  | arr (lower upper : Int) (elemName : String)
  | raw (s : String)

/-- `types[name]` lookup in the ordered table of parsed `TYPE`
declarations. -/
def lookupType (types : List (String × Node)) (s : String) : Option Node :=
  (types.find? (fun p => p.1 == s)).map Prod.snd

/-- Python `range(lower, upper + 1)` over integers. -/
def intRange (lo hi : Int) : List Int :=
  (List.range (hi + 1 - lo).toNat).map (fun (k : Nat) => lo + (k : Int))

/-- The eight fixed sub-fields the `DTL` branch of `resolve_data_types`
yields. -/
def dtl_fields (pfx : List String) : List (List String × String) :=
  [(pfx ++ ["YEAR"], "Word"), (pfx ++ ["MONTH"], "Byte"), (pfx ++ ["DAY"], "Byte"),
   (pfx ++ ["WEEKDAY"], "Byte"), (pfx ++ ["HOUR"], "Byte"), (pfx ++ ["MINUTE"], "Byte"),
   (pfx ++ ["SECOND"], "Byte"), (pfx ++ ["NANOSECOND"], "DWord")]

/-- `parser.resolve_data_types(types, prefix, d)`, fuelled.  The Python
generator recurses with no cycle check; every recursive call here costs
one unit of fuel and exhausted fuel returns `none`, so `none` for every
fuel captures a recursion that never returns.  The branches follow the
source: an array expands each index `lower..upper` into a path segment
`"[i]"` and recurses into the element type (looked up in `types`, else
treated as a base type); a string leaf is substituted when it names a
declared type and yielded as a base type otherwise; the `DTL` expansion
sits in the branch for values that are neither `dict` nor `str`
(`Node.raw`). -/
def resolve_data_types (types : List (String × Node)) :
    Nat → List String → Node → Option (List (List String × String))
  | 0, _, _ => none
  | fuel + 1, pfx, d =>
    match d with
    | .arr lower upper elemName =>
      let elem := (lookupType types elemName).getD (.prim elemName)
      ((intRange lower upper).mapM
        (fun idx =>
          resolve_data_types types fuel (pfx ++ ["[" ++ toString idx ++ "]"]) elem)).map
        List.flatten
    | .struct fs =>
      (fs.mapM (fun kv => resolve_data_types types fuel (pfx ++ [kv.1]) kv.2)).map List.flatten
    | .prim s =>
      match lookupType types s with
      | some body => resolve_data_types types fuel pfx body
      | none => some [(pfx, s)]
    | .raw s =>
      if s == "DTL" then some (dtl_fields pfx) else some [(pfx, s)]

/-! ## Name joining (`parser._join_name_parts`) -/

/-- Python `part.startswith("[")`. -/
def startswith_lbracket (s : String) : Bool :=
  s.data.head? == some '['

/-- `parser._join_name_parts(parts, delimiter)`: array-index segments
(starting with `[`) are fused onto the preceding segment, everything
else is joined with the delimiter. -/
def join_name_parts (parts : List String) (delimiter : String) : String :=
  match parts with
  | [] => ""
  | p :: rest =>
    String.intercalate delimiter
      (rest.foldl
        (fun result part =>
          if startswith_lbracket part then
            result.dropLast ++ [(result.getLast?.getD "") ++ part]
          else result ++ [part])
        [p])

/-! ## Layout generator (`parser.generate_struct_format`) -/

/-- `type_definitions.NameType`: a resolved field as a path plus an S7
type name. -/
structure NameType where
  name : List String
  type : String

/-- The `name_or_names` member of a `DBField`: a single scalar name or
the ordered name list of a packed boolean group. -/
inductive NameOrNames where
  | single (s : String)
  | group (names : List String)
deriving DecidableEq

/-- `type_definitions.DBField`. -/
structure DBField where
  name_or_names : NameOrNames
  type : String
  format : String
deriving DecidableEq

/-- `type_definitions.DBFormat`. -/
structure DBFormat where
  format : String
  fields : List DBField
  size : Nat
deriving DecidableEq

/-- `parser.s7_dtype_to_struct_mapping`. -/
def s7_dtype_to_struct_mapping : List (String × String) :=
  [("Real", "f"), ("DReal", "d"), ("Int", "h"), ("DInt", "i"), ("Byte", "B"), ("Word", "H"),
   ("DWord", "I"), ("Bool", "?"), ("Char", "c"), ("S5Time", "H"), ("Time", "i"), ("Date", "H"),
   ("Time_of_Day", "I"), ("UDInt", "i")]

/-- Dictionary lookup in `s7_dtype_to_struct_mapping`; `none` is the
`KeyError` the Python subscript raises for a type outside the table. -/
def s7Lookup (t : String) : Option String :=
  (s7_dtype_to_struct_mapping.find? (fun p => p.1 == t)).map Prod.snd

/-- The loop body of `generate_struct_format`: state is the emitted
field list, the running boolean count, the previous field's path prefix
(path minus its last segment) and the accumulated boolean names.  A
pending accumulator is flushed as one 2-byte `H` group when a non-bool
arrives, the prefix changes, or the count has reached 17 (the source
compares `bool_counter == 17`), and once more after the loop. -/
def gsfLoop (delimiter : String) :
    List NameType → List DBField → Nat → List String → List String → Option (List DBField)
  | [], fields, bool_counter, _, bools =>
    if bool_counter != 0 then some (fields ++ [⟨.group bools, "Bool", "H"⟩]) else some fields
  | i :: rest, fields, bool_counter, prev_pfx, bools =>
    let pfx := i.name.dropLast
    let flushNow :=
      bool_counter != 0 && (i.type != "Bool" || pfx != prev_pfx || bool_counter == 17)
    let fields1 := if flushNow then fields ++ [⟨.group bools, "Bool", "H"⟩] else fields
    let counter1 := if flushNow then 0 else bool_counter
    let bools1 := if flushNow then [] else bools
    if i.type == "Bool" then
      gsfLoop delimiter rest fields1 (counter1 + 1) pfx
        (bools1 ++ [join_name_parts i.name delimiter])
    else
      match s7Lookup i.type with
      | some c =>
        gsfLoop delimiter rest
          (fields1 ++ [⟨.single (join_name_parts i.name delimiter), i.type, c⟩]) counter1 pfx
          bools1
      | none => none

/-- `parser.generate_struct_format(name_type_pairs, nested_field_delimiter)`.
The size of the resulting `">..."` format string under `struct.calcsize`
is the sum of the individual field widths (the `>` prefix disables
padding). -/
def generate_struct_format (name_type_pairs : List NameType) (nested_field_delimiter : String) :
    Option DBFormat :=
  (gsfLoop nested_field_delimiter name_type_pairs [] 0 [] []).map
    (fun fields =>
      { format := ">" ++ String.join (fields.map (fun p => p.format))
        fields := fields
        size := (fields.map (fun p => struct_calcsize p.format)).sum })

/-! ## Address index and buffer accessor (`utlis.py`) -/

/-- The address stored in an `AddressInfo`: a plain byte offset for a
scalar, or a `(byte_offset, bit_position)` pair for a packed boolean. -/
inductive PyAddr where
  | ofs (o : Nat)
  | bits (o : Nat) (bit : Nat)
deriving DecidableEq

/-- `type_definitions.AddressInfo`. -/
structure AddressInfo where
  address : PyAddr
  format : String
deriving DecidableEq

/-- Lookup in the name-to-address dict; `none` is the `KeyError` of
`self.data[name]`. -/
def dictGet (m : List (String × AddressInfo)) (k : String) : Option AddressInfo :=
  (m.find? (fun p => p.1 == k)).map Prod.snd

/-- Python dict assignment `mapping[k] = v`: replaces the value in place
when the key exists (keeping its position), appends otherwise.  It never
fails. -/
def dictInsert (m : List (String × AddressInfo)) (k : String) (v : AddressInfo) :
    List (String × AddressInfo) :=
  match m with
  | [] => [(k, v)]
  | (k1, v1) :: rest => if k1 == k then (k, v) :: rest else (k1, v1) :: dictInsert rest k v

/-- The loop of `S7DataBlock.fields_to_mapping`: each field is placed at
the running byte cursor (`address`), bools of a group at successive bit
positions of that cursor, and the cursor advances by
`struct.calcsize(field.format)`. -/
def fields_to_mapping_loop :
    List DBField → List (String × AddressInfo) → Nat → List (String × AddressInfo) × Nat
  | [], mapping, address => (mapping, address)
  | field :: rest, mapping, address =>
    let mapping1 :=
      match field.name_or_names with
      | .group names =>
        names.enum.foldl
          (fun acc p => dictInsert acc p.2 ⟨.bits address p.1, field.format⟩) mapping
      | .single nm => dictInsert mapping nm ⟨.ofs address, field.format⟩
    fields_to_mapping_loop rest mapping1 (address + struct_calcsize field.format)

/-- `S7DataBlock.fields_to_mapping(fields)`: returns the name-to-address
dict and the total size (the final cursor). -/
def fields_to_mapping (fields : List DBField) : List (String × AddressInfo) × Nat :=
  fields_to_mapping_loop fields [] 0

/-- The zero-filled buffer `S7DataBlock.from_fields` allocates
(`bytearray(size)`). -/
def from_fields_buffer (fields : List DBField) : List Nat :=
  List.replicate (fields_to_mapping fields).2 0

/-- `BufferMapping.__getitem__(name)`.  A bit address is read by
unpacking the containing word little-endian (`<H`) and testing the bit;
anything else goes through the big-endian scalar decoder at the byte
offset.  `none` is a raised exception (missing name, short slice or a
tuple offset reaching the scalar path). -/
def getItem (buf : List Nat) (m : List (String × AddressInfo)) (name : String) : Option PyVal :=
  match dictGet m name with
  | none => none
  | some ai =>
    match ai.format == "H", ai.address with
    | true, .bits byteOffset bitPosition =>
      match (buf.drop byteOffset).take 2 with
      | [b0, b1] => some (.bool (((b0 + 256 * b1) >>> bitPosition) &&& 1 == 1))
      | _ => none
    | _, .ofs offset =>
      decodeScalar ai.format ((buf.drop offset).take (struct_calcsize ai.format))
    | _, .bits _ _ => none

/-- `BufferMapping.__setitem__(name, value)`.  A bit address reads the
containing word little-endian, sets or clears the addressed bit
(`current | (1 << bit)` resp. `current & ~(1 << bit)`; `Nat.ldiff` is
bitwise and-not, which is what the Python expression computes on the
nonnegative word) and packs the word back with `<H`, whose range check
rejects words of 2^16 or more.  Anything else goes through the
big-endian scalar encoder.  `none` is a raised exception; the single
buffer mutation happens after every fallible step, so an exception
leaves the buffer untouched. -/
def setItem (buf : List Nat) (m : List (String × AddressInfo)) (name : String) (value : PyVal) :
    Option (List Nat) :=
  match dictGet m name with
  | none => none
  | some ai =>
    match ai.format == "H", ai.address with
    | true, .bits byteOffset bitPosition =>
      match (buf.drop byteOffset).take 2 with
      | [b0, b1] =>
        let current := b0 + 256 * b1
        let newWord :=
          if truthy value then current ||| (1 <<< bitPosition)
          else Nat.ldiff current (1 <<< bitPosition)
        if newWord < 2 ^ 16 then
          some (spliceBytes buf byteOffset [newWord % 256, newWord / 256])
        else none
      | _ => none
    | _, .ofs offset =>
      match encodeScalar ai.format value with
      | some bs => some (spliceBytes buf offset bs)
      | none => none
    | _, .bits _ _ => none

/-! ## Auxiliary definitions for the proofs -/

/-- A type table with a direct self-reference: `TYPE T` whose struct body
contains a member `x : "T"`. -/
def cyclicTypes : List (String × Node) :=
  [("T", .struct [("x", .prim "T")])]

def dictKeys (m : List (String × AddressInfo)) : List String :=
  m.map Prod.fst

def sumWidths (fs : List DBField) : Nat :=
  (fs.map (fun f => struct_calcsize f.format)).sum

def entryAddr (e : String × AddressInfo) : Nat :=
  match e.2.address with
  | .ofs o => o
  | .bits o _ => o

def isGroupField (f : DBField) : Bool :=
  match f.name_or_names with
  | .group _ => true
  | .single _ => false

/-! ## Concrete inputs used by the claims -/

def names17 : List String :=
  (List.range 17).map (fun k => "b" ++ toString k)

def bools17 : List NameType :=
  (List.range 17).map (fun k => ⟨["b" ++ toString k], "Bool"⟩)

def group17 : DBField :=
  ⟨.group names17, "Bool", "H"⟩

def sensorTypes : List (String × Node) :=
  [("Sensor", .struct [("A", .prim "Bool"), ("B", .prim "Int")])]

def abcdNode : Node :=
  .struct [("a", .prim "Bool"), ("b", .prim "Bool"), ("c", .prim "Bool"), ("d", .prim "Int")]

def abcdFields : List DBField :=
  [⟨.group ["a", "b", "c"], "Bool", "H"⟩, ⟨.single "d", "Int", "h"⟩]

def abcdMapping : List (String × AddressInfo) :=
  [("a", ⟨.bits 0 0, "H"⟩), ("b", ⟨.bits 0 1, "H"⟩), ("c", ⟨.bits 0 2, "H"⟩),
   ("d", ⟨.ofs 2, "h"⟩)]

def dupFields : List DBField :=
  [⟨.single "x", "Int", "h"⟩, ⟨.single "x", "Byte", "B"⟩]

/-! ## Lemmas about the byte codec -/

theorem toBE_length (w v : Nat) : (toBE w v).length = w := by
  induction w generalizing v with
  | zero => rfl
  | succ w ih => simp [toBE, ih]

theorem fromBE_append_one (l : List Nat) (b : Nat) : fromBE (l ++ [b]) = fromBE l * 256 + b := by
  simp [fromBE]

theorem fromBE_toBE (w v : Nat) : fromBE (toBE w v) = v % 2 ^ (8 * w) := by
  induction w generalizing v with
  | zero => simp [toBE, fromBE, Nat.mod_one]
  | succ w ih =>
    have hsplit : v % (256 * 2 ^ (8 * w)) = v % 256 + 256 * (v / 256 % 2 ^ (8 * w)) :=
      Nat.mod_mul
    have hpow : 2 ^ (8 * (w + 1)) = 256 * 2 ^ (8 * w) := by
      rw [Nat.mul_succ, pow_add]; ring
    rw [toBE, fromBE_append_one, ih, hpow, hsplit]
    ring

theorem toBE_lt_256 (w v : Nat) : ∀ x ∈ toBE w v, x < 256 := by
  induction w generalizing v with
  | zero => simp [toBE]
  | succ w ih =>
    intro x hx
    rw [toBE, List.mem_append] at hx
    rcases hx with hx | hx
    · exact ih _ x hx
    · simp only [List.mem_singleton] at hx
      subst hx
      exact Nat.mod_lt _ (by norm_num)

theorem unsigned_core (w : Nat) (v : Int) (h0 : 0 ≤ v) (hhi : v < (2 : Int) ^ (8 * w)) :
    ((fromBE (toBE w v.toNat) : Nat) : Int) = v := by
  have hcast : (((2 : Nat) ^ (8 * w) : Nat) : Int) = (2 : Int) ^ (8 * w) := by push_cast; rfl
  have hlt : v.toNat < 2 ^ (8 * w) := by omega
  rw [fromBE_toBE, Nat.mod_eq_of_lt hlt]
  omega

theorem signed_core (w : Nat) (hw : w ≠ 0) (v : Int)
    (hlo : -((2 : Int) ^ (8 * w - 1)) ≤ v) (hhi : v < (2 : Int) ^ (8 * w - 1)) :
    (if fromBE (toBE w ((v % (2 : Int) ^ (8 * w)).toNat)) < 2 ^ (8 * w - 1) then
      ((fromBE (toBE w ((v % (2 : Int) ^ (8 * w)).toNat)) : Nat) : Int)
    else ((fromBE (toBE w ((v % (2 : Int) ^ (8 * w)).toNat)) : Nat) : Int) - (2 : Int) ^ (8 * w))
      = v := by
  have h81 : 8 * w - 1 + 1 = 8 * w := by omega
  have hcastM : (((2 : Nat) ^ (8 * w) : Nat) : Int) = (2 : Int) ^ (8 * w) := by push_cast; rfl
  have hcastK : (((2 : Nat) ^ (8 * w - 1) : Nat) : Int) = (2 : Int) ^ (8 * w - 1) := by
    push_cast; rfl
  have hMK : (2 : Int) ^ (8 * w) = 2 * 2 ^ (8 * w - 1) := by
    calc (2 : Int) ^ (8 * w) = 2 ^ (8 * w - 1 + 1) := by rw [h81]
      _ = 2 ^ (8 * w - 1) * 2 := pow_succ 2 (8 * w - 1)
      _ = 2 * 2 ^ (8 * w - 1) := mul_comm _ _
  have hMKn : (2 : Nat) ^ (8 * w) = 2 * 2 ^ (8 * w - 1) := by
    calc (2 : Nat) ^ (8 * w) = 2 ^ (8 * w - 1 + 1) := by rw [h81]
      _ = 2 ^ (8 * w - 1) * 2 := pow_succ 2 (8 * w - 1)
      _ = 2 * 2 ^ (8 * w - 1) := mul_comm _ _
  have hMpos : (0 : Int) < (2 : Int) ^ (8 * w) := by positivity
  have h0 : 0 ≤ v % (2 : Int) ^ (8 * w) := Int.emod_nonneg v (by positivity)
  have h2 : v % (2 : Int) ^ (8 * w) < (2 : Int) ^ (8 * w) := Int.emod_lt_of_pos v hMpos
  have hlt : (v % (2 : Int) ^ (8 * w)).toNat < 2 ^ (8 * w) := by omega
  have hres : v % (2 : Int) ^ (8 * w) = v ∨
      v % (2 : Int) ^ (8 * w) = v + (2 : Int) ^ (8 * w) := by
    rcases le_or_lt 0 v with hp | hp
    · left
      exact Int.emod_eq_of_lt hp (by omega)
    · right
      have e1 : (v + (2 : Int) ^ (8 * w) * 1) % (2 : Int) ^ (8 * w) = v % (2 : Int) ^ (8 * w) := by
        rw [Int.add_mul_emod_self_left]
      rw [mul_one] at e1
      have e2 : (v + (2 : Int) ^ (8 * w)) % (2 : Int) ^ (8 * w) = v + (2 : Int) ^ (8 * w) :=
        Int.emod_eq_of_lt (by omega) (by omega)
      omega
  rw [fromBE_toBE, Nat.mod_eq_of_lt hlt]
  rcases hres with h | h <;> rw [h] <;> split <;> omega

theorem decode_encodeScalar (fmt : String) (v : Int)
    (hq : fmt ≠ "?") (hw : struct_calcsize fmt ≠ 0)
    (hrep : representable fmt v = true) :
    ∃ bs, encodeScalar fmt (.int v) = some bs ∧ bs.length = struct_calcsize fmt ∧
      decodeScalar fmt bs = some (.int v) := by
  have hbq : (fmt == "?") = false := beq_eq_false_iff_ne.mpr hq
  have hwq : (struct_calcsize fmt == 0) = false := beq_eq_false_iff_ne.mpr hw
  cases hs : isSignedFmt fmt with
  | false =>
    have hrep2 := hrep
    simp [representable, hs] at hrep2
    obtain ⟨h0, hhi⟩ := hrep2
    refine ⟨toBE (struct_calcsize fmt) v.toNat, ?_, toBE_length _ _, ?_⟩
    · simp [encodeScalar, hbq, hwq, hrep, hs, valueAsInt]
    · simp [decodeScalar, hbq, hwq, toBE_length, hs]
      exact unsigned_core _ v h0 hhi
  | true =>
    have hrep2 := hrep
    simp [representable, hs] at hrep2
    obtain ⟨hlo, hhi⟩ := hrep2
    refine ⟨toBE (struct_calcsize fmt)
      ((v % (2 : Int) ^ (8 * struct_calcsize fmt)).toNat), ?_, toBE_length _ _, ?_⟩
    · simp [encodeScalar, hbq, hwq, hrep, hs, valueAsInt]
    · simp [decodeScalar, hbq, hwq, toBE_length, hs]
      exact signed_core _ hw v hlo hhi

/-! ## Lemmas about buffer splicing -/

theorem spliceBytes_length (buf : List Nat) (o : Nat) (bs : List Nat)
    (h : o + bs.length ≤ buf.length) : (spliceBytes buf o bs).length = buf.length := by
  simp only [spliceBytes, List.length_append, List.length_take, List.length_drop]
  omega

theorem spliceBytes_read (buf : List Nat) (o : Nat) (bs : List Nat) (h : o ≤ buf.length) :
    ((spliceBytes buf o bs).drop o).take bs.length = bs := by
  have hlen : (buf.take o).length = o := by
    rw [List.length_take]
    omega
  rw [spliceBytes, List.append_assoc]
  have hdrop := List.drop_left (buf.take o) (bs ++ buf.drop (o + bs.length))
  rw [hlen] at hdrop
  rw [hdrop, List.take_left]

theorem spliceBytes_outside (buf : List Nat) (o : Nat) (bs : List Nat) (j : Nat)
    (hin : o + bs.length ≤ buf.length)
    (hj : j < o ∨ o + bs.length ≤ j) : (spliceBytes buf o bs)[j]? = buf[j]? := by
  rw [spliceBytes, List.append_assoc]
  have hto : (buf.take o).length = o := by
    rw [List.length_take]
    omega
  rcases hj with hj | hj
  · rw [List.getElem?_append_left (show j < (buf.take o).length by omega)]
    simp [List.getElem?_take, hj]
  · rw [List.getElem?_append_right (show (buf.take o).length ≤ j by omega),
      List.getElem?_append_right (show bs.length ≤ j - (buf.take o).length by rw [hto]; omega)]
    rw [List.getElem?_drop]
    have he : o + bs.length + (j - (buf.take o).length - bs.length) = j := by
      rw [hto]
      omega
    rw [he]

/-! ## Lemmas about single-bit updates -/

theorem bitRead_eq_testBit (x b : Nat) : (((x >>> b) &&& 1) == 1) = x.testBit b := by
  rw [Nat.and_one_is_mod, Nat.shiftRight_eq_div_pow, Nat.testBit_to_div_mod]
  rcases Nat.mod_two_eq_zero_or_one (x / 2 ^ b) with h | h <;> rw [h] <;> rfl

theorem testBit_set_self (cur b : Nat) : (cur ||| (1 <<< b)).testBit b = true := by
  rw [Nat.one_shiftLeft, Nat.testBit_or, Nat.testBit_two_pow]
  simp

theorem testBit_clear_self (cur b : Nat) : (Nat.ldiff cur (1 <<< b)).testBit b = false := by
  rw [Nat.one_shiftLeft, Nat.testBit_ldiff, Nat.testBit_two_pow]
  simp

theorem testBit_set_other (cur b j : Nat) (h : j ≠ b) :
    (cur ||| (1 <<< b)).testBit j = cur.testBit j := by
  rw [Nat.one_shiftLeft, Nat.testBit_or, Nat.testBit_two_pow]
  simp [Ne.symm h]

theorem testBit_clear_other (cur b j : Nat) (h : j ≠ b) :
    (Nat.ldiff cur (1 <<< b)).testBit j = cur.testBit j := by
  rw [Nat.one_shiftLeft, Nat.testBit_ldiff, Nat.testBit_two_pow]
  simp [Ne.symm h]

theorem or_bit_lt_two_pow (cur b : Nat) (hc : cur < 2 ^ 16) (hb : b < 16) :
    cur ||| (1 <<< b) < 2 ^ 16 := by
  rw [Nat.one_shiftLeft]
  exact Nat.or_lt_two_pow hc (Nat.pow_lt_pow_right (by norm_num) hb)

theorem ldiff_lt_two_pow (cur m : Nat) (hc : cur < 2 ^ 16) : Nat.ldiff cur m < 2 ^ 16 := by
  have hle : Nat.ldiff cur m ≤ cur := by
    apply Nat.le_of_testBit
    intro i h
    rw [Nat.testBit_ldiff] at h
    exact Bool.and_elim_left h
  omega

theorem take_two_of_le (buf : List Nat) (o : Nat) (h : o + 2 ≤ buf.length) :
    ∃ b0 b1, (buf.drop o).take 2 = [b0, b1] ∧ b0 ∈ buf ∧ b1 ∈ buf := by
  have hlen : ((buf.drop o).take 2).length = 2 := by
    simp only [List.length_take, List.length_drop]
    omega
  cases hm : (buf.drop o).take 2 with
  | nil => rw [hm] at hlen; simp at hlen
  | cons a l =>
    cases l with
    | nil => rw [hm] at hlen; simp at hlen
    | cons b l2 =>
      have hl2 : l2 = [] := by
        rw [hm] at hlen
        simp at hlen
        exact hlen
      subst hl2
      refine ⟨a, b, rfl, ?_, ?_⟩
      · exact List.mem_of_mem_drop (List.mem_of_mem_take (hm ▸ List.mem_cons_self a _))
      · exact List.mem_of_mem_drop (List.mem_of_mem_take
          (hm ▸ List.mem_cons_of_mem a (List.mem_cons_self b _)))

/-! ## Lemmas about the resolver -/

theorem mapM_of_some {α β : Type} (l : List α) (F : α → List β) :
    l.mapM (fun i => some (F i)) = some (l.map F) := by
  rw [← List.mapM'_eq_mapM]
  induction l with
  | nil => rfl
  | cons a t ih => simp [List.mapM', ih]

theorem mapM_pointwise_map {α β : Type} (l : List α) (h : β → β)
    (f g : α → Option (List β))
    (hfg : ∀ x ∈ l, f x = (g x).map (List.map h)) :
    (l.mapM f).map List.flatten = ((l.mapM g).map List.flatten).map (List.map h) := by
  rw [← List.mapM'_eq_mapM, ← List.mapM'_eq_mapM]
  revert hfg
  induction l with
  | nil =>
    intro hfg
    rfl
  | cons a t ih =>
    intro hfg
    have hfa := hfg a (List.mem_cons_self a t)
    have iht := ih (fun x hx => hfg x (List.mem_cons_of_mem a hx))
    cases hga : g a with
    | none =>
      rw [hga] at hfa
      simp at hfa
      simp [List.mapM', hfa, hga]
    | some ys =>
      rw [hga] at hfa
      simp at hfa
      cases hgt : List.mapM' g t with
      | none =>
        rw [hgt] at iht
        simp at iht
        have hft : List.mapM' f t = none := by
          cases hft : List.mapM' f t with
          | none => rfl
          | some l2 =>
            rw [hft] at iht
            simp at iht
        simp [List.mapM', hfa, hga, hgt, hft]
      | some yss =>
        rw [hgt] at iht
        cases hft : List.mapM' f t with
        | none =>
          rw [hft] at iht
          simp at iht
        | some fss =>
          rw [hft] at iht
          simp at iht
          simp [List.mapM', hfa, hga, hgt, hft, iht]

theorem resolve_shift (types : List (String × Node)) :
    ∀ (fuel : Nat) (d : Node) (p q : List String),
      resolve_data_types types fuel (p ++ q) d =
        (resolve_data_types types fuel q d).map
          (List.map (fun e => (p ++ e.1, e.2))) := by
  intro fuel
  induction fuel with
  | zero =>
    intro d p q
    rfl
  | succ n ih =>
    intro d p q
    cases d with
    | prim s =>
      cases hl : lookupType types s with
      | some body =>
        simp only [resolve_data_types, hl]
        exact ih body p q
      | none =>
        simp [resolve_data_types, hl]
    | struct fs =>
      simp only [resolve_data_types]
      exact mapM_pointwise_map fs _ _ _
        (fun kv _ => by rw [List.append_assoc]; exact ih kv.2 p (q ++ [kv.1]))
    | arr lo hi nm =>
      simp only [resolve_data_types]
      exact mapM_pointwise_map (intRange lo hi) _ _ _
        (fun idx _ => by
          rw [List.append_assoc]
          exact ih _ p (q ++ ["[" ++ toString idx ++ "]"]))
    | raw s =>
      cases hdtl : s == "DTL" with
      | true => simp [resolve_data_types, hdtl, dtl_fields, List.append_assoc]
      | false => simp [resolve_data_types, hdtl]

theorem resolve_cyclic_aux :
    ∀ fuel pfx, resolve_data_types cyclicTypes fuel pfx (.prim "T") = none ∧
      resolve_data_types cyclicTypes fuel pfx (.struct [("x", .prim "T")]) = none := by
  intro fuel
  induction fuel with
  | zero =>
    intro pfx
    exact ⟨rfl, rfl⟩
  | succ n ih =>
    intro pfx
    constructor
    · have hl : lookupType cyclicTypes "T" = some (.struct [("x", .prim "T")]) := rfl
      simp only [resolve_data_types, hl]
      exact (ih pfx).2
    · simp only [resolve_data_types]
      have hx := (ih (pfx ++ ["x"])).1
      rw [← List.mapM'_eq_mapM]
      simp [List.mapM', hx]

/-! ## Lemmas about the address index -/

theorem sumWidths_nil : sumWidths [] = 0 := rfl

theorem sumWidths_cons (f : DBField) (fs : List DBField) :
    sumWidths (f :: fs) = struct_calcsize f.format + sumWidths fs := by
  simp [sumWidths]

theorem mem_dictInsert : ∀ (m : List (String × AddressInfo)) (k : String) (v : AddressInfo)
    (e : String × AddressInfo), e ∈ dictInsert m k v → e = (k, v) ∨ e ∈ m
  | [], k, v, e, he => by simpa [dictInsert] using he
  | (k1, v1) :: t, k, v, e, he => by
    rw [dictInsert] at he
    split at he
    · rcases List.mem_cons.1 he with h | h
      · exact Or.inl h
      · exact Or.inr (List.mem_cons_of_mem _ h)
    · rcases List.mem_cons.1 he with h | h
      · exact Or.inr (h ▸ List.mem_cons_self _ _)
      · rcases mem_dictInsert t k v e h with h2 | h2
        · exact Or.inl h2
        · exact Or.inr (List.mem_cons_of_mem _ h2)

theorem dictKeys_dictInsert : ∀ (m : List (String × AddressInfo)) (k : String) (v : AddressInfo),
    dictKeys (dictInsert m k v) = if k ∈ dictKeys m then dictKeys m else dictKeys m ++ [k]
  | [], k, v => by simp [dictInsert, dictKeys]
  | (k1, v1) :: t, k, v => by
    rw [dictInsert]
    by_cases h : k1 = k
    · subst h
      simp [dictKeys]
    · have hb : (k1 == k) = false := beq_eq_false_iff_ne.mpr h
      rw [if_neg (by simp [hb])]
      have hne : ¬(k = k1) := fun hc => h hc.symm
      have ht := dictKeys_dictInsert t k v
      simp only [dictKeys] at ht ⊢
      rw [List.map_cons, List.map_cons, ht]
      by_cases hk : k ∈ t.map Prod.fst
      · rw [if_pos hk, if_pos (by simp [hk])]
      · rw [if_neg hk, if_neg (by simp [hne, hk])]
        simp

theorem nodup_dictInsert (m : List (String × AddressInfo)) (k : String) (v : AddressInfo)
    (h : (dictKeys m).Nodup) : (dictKeys (dictInsert m k v)).Nodup := by
  rw [dictKeys_dictInsert]
  split
  · exact h
  · rename_i hnot
    simp [List.nodup_append, h, hnot]

theorem nodup_groupFold : ∀ (pairs : List (Nat × String)) (m : List (String × AddressInfo))
    (a : Nat) (c : String), (dictKeys m).Nodup →
    (dictKeys (pairs.foldl (fun acc p => dictInsert acc p.2 ⟨.bits a p.1, c⟩) m)).Nodup
  | [], _, _, _, h => h
  | p :: ps, m, a, c, h =>
    nodup_groupFold ps (dictInsert m p.2 ⟨.bits a p.1, c⟩) a c (nodup_dictInsert m _ _ h)

theorem nodup_fields_to_mapping_loop : ∀ (fs : List DBField) (m : List (String × AddressInfo))
    (a : Nat), (dictKeys m).Nodup → (dictKeys (fields_to_mapping_loop fs m a).1).Nodup
  | [], _, _, h => h
  | f :: rest, m, a, h => by
    cases hno : f.name_or_names with
    | group names =>
      simp only [fields_to_mapping_loop, hno]
      exact nodup_fields_to_mapping_loop rest _ _ (nodup_groupFold names.enum m a f.format h)
    | single nm =>
      simp only [fields_to_mapping_loop, hno]
      exact nodup_fields_to_mapping_loop rest _ _ (nodup_dictInsert m nm _ h)

theorem fields_to_mapping_loop_snd : ∀ (fs : List DBField) (m : List (String × AddressInfo))
    (a : Nat), (fields_to_mapping_loop fs m a).2 = a + sumWidths fs
  | [], m, a => by simp [fields_to_mapping_loop, sumWidths]
  | f :: rest, m, a => by
    cases hno : f.name_or_names with
    | group names =>
      simp only [fields_to_mapping_loop, hno]
      rw [fields_to_mapping_loop_snd rest _ _, sumWidths_cons]
      omega
    | single nm =>
      simp only [fields_to_mapping_loop, hno]
      rw [fields_to_mapping_loop_snd rest _ _, sumWidths_cons]
      omega

theorem groupFold_mem : ∀ (pairs : List (Nat × String)) (m : List (String × AddressInfo))
    (a : Nat) (c : String) (e : String × AddressInfo),
    e ∈ pairs.foldl (fun acc p => dictInsert acc p.2 ⟨.bits a p.1, c⟩) m →
    e ∈ m ∨ ∃ p ∈ pairs, e = (p.2, ⟨.bits a p.1, c⟩)
  | [], m, a, c, e, he => Or.inl he
  | p :: ps, m, a, c, e, he => by
    rcases groupFold_mem ps _ a c e he with h | ⟨p2, hp2, he2⟩
    · rcases mem_dictInsert _ _ _ _ h with h2 | h2
      · exact Or.inr ⟨p, List.mem_cons_self _ _, h2⟩
      · exact Or.inl h2
    · exact Or.inr ⟨p2, List.mem_cons_of_mem _ hp2, he2⟩

theorem fields_to_mapping_loop_mem : ∀ (fs : List DBField) (m : List (String × AddressInfo))
    (a : Nat) (e : String × AddressInfo), e ∈ (fields_to_mapping_loop fs m a).1 →
    e ∈ m ∨ ∃ pre f suf, fs = pre ++ f :: suf ∧
      ((∃ nm, f.name_or_names = .single nm ∧
          e = (nm, ⟨.ofs (a + sumWidths pre), f.format⟩)) ∨
        (∃ names bit nm, f.name_or_names = .group names ∧ (bit, nm) ∈ names.enum ∧
          e = (nm, ⟨.bits (a + sumWidths pre) bit, f.format⟩)))
  | [], m, a, e, he => Or.inl he
  | f :: rest, m, a, e, he => by
    cases hno : f.name_or_names with
    | group names =>
      rw [fields_to_mapping_loop] at he
      rw [hno] at he
      rcases fields_to_mapping_loop_mem rest _ _ e he with h | ⟨pre, f2, suf, hfs, hsh⟩
      · rcases groupFold_mem _ _ _ _ _ h with h2 | ⟨p2, hp2, he2⟩
        · exact Or.inl h2
        · refine Or.inr ⟨[], f, rest, rfl, Or.inr ⟨names, p2.1, p2.2, hno, hp2, ?_⟩⟩
          rw [he2, sumWidths_nil, Nat.add_zero]
      · refine Or.inr ⟨f :: pre, f2, suf, by rw [hfs]; rfl, ?_⟩
        rw [sumWidths_cons]
        have harith : a + struct_calcsize f.format + sumWidths pre =
            a + (struct_calcsize f.format + sumWidths pre) := by omega
        rw [← harith]
        exact hsh
    | single nm =>
      rw [fields_to_mapping_loop] at he
      rw [hno] at he
      rcases fields_to_mapping_loop_mem rest _ _ e he with h | ⟨pre, f2, suf, hfs, hsh⟩
      · rcases mem_dictInsert _ _ _ _ h with h2 | h2
        · refine Or.inr ⟨[], f, rest, rfl, Or.inl ⟨nm, hno, ?_⟩⟩
          rw [h2, sumWidths_nil, Nat.add_zero]
        · exact Or.inl h2
      · refine Or.inr ⟨f :: pre, f2, suf, by rw [hfs]; rfl, ?_⟩
        rw [sumWidths_cons]
        have harith : a + struct_calcsize f.format + sumWidths pre =
            a + (struct_calcsize f.format + sumWidths pre) := by omega
        rw [← harith]
        exact hsh

/-! ## Claims -/

/-- C1: the claim says a pending boolean accumulator is flushed at
exactly 16 members, so 17 consecutive same-level booleans give two
`BoolGroup`s of 16 and 1.  The code flushes only when `bool_counter ==
17`, so 17 consecutive booleans with the same path prefix become a
single group of 17 names; the 17th name receives bit position 16, which
lies outside the 2-byte word: reading it through the accessor always
yields `False` and setting it `True` makes `struct.pack("<H", ...)`
raise.  This contradicts the function's own docstring ("Boolean fields
are accumulated up to a maximum of 16"). -/
theorem c1_seventeen_bools_one_group :
    generate_struct_format bools17 "." = some ⟨">H", [group17], 2⟩ ∧
    dictGet (fields_to_mapping [group17]).1 "b16" = some ⟨.bits 0 16, "H"⟩ ∧
    setItem [0, 0] (fields_to_mapping [group17]).1 "b16" (.bool true) = none ∧
    getItem [255, 255] (fields_to_mapping [group17]).1 "b16" = some (.bool false) := by
  refine ⟨by decide, by decide, by decide, by decide⟩

/-- C2: the claim says a field whose declared type is the literal name
`DTL` resolves to eight fixed sub-fields.  The parser delivers the type
name as a Python `str`, which takes the string branch of
`resolve_data_types` and is yielded unchanged as a base type (first
conjunct); the downstream layout generator then fails on the unknown
type name `DTL` (second conjunct).  The eight-field expansion exists
only in the branch for values that are neither `dict` nor `str`, which
a parsed field never reaches (third conjunct). -/
theorem c2_dtl_leaks_unexpanded :
    (∀ fuel : Nat, resolve_data_types [] (fuel + 1) ["t"] (.prim "DTL") =
      some [(["t"], "DTL")]) ∧
    generate_struct_format [⟨["t"], "DTL"⟩] "." = none ∧
    resolve_data_types [] 1 ["t"] (.raw "DTL") = some (dtl_fields ["t"]) := by
  refine ⟨fun fuel => rfl, by decide, by decide⟩

/-- C8: the claim says resolution of a self-referencing `TYPE`
terminates and rejects the cycle with an error.  The code has no cycle
detection: for the table `TYPE T = STRUCT x : "T" END_STRUCT` the
resolver substitutes the body of `T` for ever - no fuel bound makes the
recursion return (in CPython the call dies with the interpreter's
`RecursionError`, not with any error issued by the resolver). -/
theorem c8_cyclic_type_resolution_diverges :
    ∀ (fuel : Nat) (pfx : List String),
      resolve_data_types cyclicTypes fuel pfx (.prim "T") = none :=
  fun fuel pfx => (resolve_cyclic_aux fuel pfx).1

/-- C9, counterexample: the claim says a duplicate flattened field name
makes index construction fail.  `fields_to_mapping` cannot fail: on the
duplicate list below it returns normally, with the second `x` silently
overwriting the first (the address of `x` is the second field's) and
the size still counting both fields. -/
theorem c9_duplicate_does_not_fail :
    fields_to_mapping dupFields = ([("x", ⟨.ofs 2, "B"⟩)], 3) := by
  decide

/-- C9, amended: building the index from duplicate flattened names does
not raise a construction-time error; the later field's address silently
overwrites the earlier one.  The key list of any constructed index is
nevertheless duplicate-free, because the index is a dict. -/
theorem c9_unique_keys_amended :
    (∀ fields : List DBField, (dictKeys (fields_to_mapping fields).1).Nodup) ∧
    dictGet (fields_to_mapping dupFields).1 "x" = some ⟨.ofs 2, "B"⟩ := by
  constructor
  · intro fields
    exact nodup_fields_to_mapping_loop fields [] 0 (by simp [dictKeys])
  · decide

/-- C6: the scenario `STRUCT a : Bool; b : Bool; c : Bool; d : Int;
END_STRUCT` resolves to four fields, lays out as one packed word
(`a`, `b`, `c` at bits 0-2 of offset 0) followed by a big-endian Int16
at bytes 2-3, with total size 4; starting from a zero-filled buffer,
setting `a` to true makes byte 0 equal 0x01 and byte 1 equal 0x00, and
setting `d` to 0x1234 stores it big-endian in bytes 2-3. -/
theorem c6_scenario_abcd :
    resolve_data_types [] 2 [] abcdNode =
      some [(["a"], "Bool"), (["b"], "Bool"), (["c"], "Bool"), (["d"], "Int")] ∧
    generate_struct_format
      [⟨["a"], "Bool"⟩, ⟨["b"], "Bool"⟩, ⟨["c"], "Bool"⟩, ⟨["d"], "Int"⟩] "." =
      some ⟨">Hh", abcdFields, 4⟩ ∧
    fields_to_mapping abcdFields = (abcdMapping, 4) ∧
    from_fields_buffer abcdFields = [0, 0, 0, 0] ∧
    setItem [0, 0, 0, 0] abcdMapping "a" (.bool true) = some [1, 0, 0, 0] ∧
    setItem [0, 0, 0, 0] abcdMapping "d" (.int 4660) = some [0, 0, 18, 52] := by
  refine ⟨by decide, by decide, by decide, by decide, by decide, by decide⟩

/-- C7: a name absent from the address index makes both get and set
raise (`KeyError` from the index lookup, modelled as `none`); the
lookup happens before any buffer access, and the single buffer mutation
in set sits after it, so the buffer is untouched by the failed call. -/
theorem c7_unknown_field :
    ∀ (buf : List Nat) (m : List (String × AddressInfo)) (name : String) (v : PyVal),
      dictGet m name = none →
      getItem buf m name = none ∧ setItem buf m name v = none ∧
      (setItem buf m name v).getD buf = buf := by
  intro buf m name v h
  refine ⟨?_, ?_, ?_⟩
  · simp [getItem, h]
  · simp [setItem, h]
  · simp [setItem, h]

/-- C7, witness at a concrete absent name. -/
theorem c7_unknown_field_witness :
    getItem [0, 0, 0, 0] abcdMapping "nope" = none ∧
    setItem [0, 0, 0, 0] abcdMapping "nope" (.bool true) = none ∧
    (setItem [0, 0, 0, 0] abcdMapping "nope" (.bool true)).getD [0, 0, 0, 0] = [0, 0, 0, 0] :=
  c7_unknown_field [0, 0, 0, 0] abcdMapping "nope" (.bool true) (by decide)

/-- C3: an array declaration with integer bounds `lower..upper` and a
type-reference element expands, index-major, into one full copy of the
element's resolved fields per index `lower`, ..., `upper`, each under
the extra path segment `"[i]"` (first conjunct, for every table,
prefix and bounds; the number of copies is the length of
`range(lower, upper+1)`, second conjunct); and the flattened names fuse
the index onto the preceding segment, so `Array[1..3] of "Sensor"`
with `Sensor = {A : Bool, B : Int}` yields exactly `Sensor[1].A,
Sensor[1].B, Sensor[2].A, Sensor[2].B, Sensor[3].A, Sensor[3].B` in
that order (third conjunct). -/
theorem c3_array_expansion :
    (∀ (types : List (String × Node)) (fuel : Nat) (p : List String) (lo hi : Int)
      (nm : String) (base : List (List String × String)),
      resolve_data_types types fuel [] ((lookupType types nm).getD (.prim nm)) = some base →
      resolve_data_types types (fuel + 1) p (.arr lo hi nm) =
        some (((intRange lo hi).map (fun i =>
          base.map (fun e => ((p ++ ["[" ++ toString i ++ "]"]) ++ e.1, e.2)))).flatten)) ∧
    (∀ lo hi : Int, (intRange lo hi).length = (hi + 1 - lo).toNat) ∧
    ((resolve_data_types sensorTypes 5 ["Sensor"] (.arr 1 3 "Sensor")).map
        (List.map (fun e => (join_name_parts e.1 ".", e.2))) =
      some [("Sensor[1].A", "Bool"), ("Sensor[1].B", "Int"), ("Sensor[2].A", "Bool"),
        ("Sensor[2].B", "Int"), ("Sensor[3].A", "Bool"), ("Sensor[3].B", "Int")]) := by
  refine ⟨?_, ?_, by decide⟩
  · intro types fuel p lo hi nm base hbase
    have hpt : ∀ idx : Int,
        resolve_data_types types fuel (p ++ ["[" ++ toString idx ++ "]"])
          ((lookupType types nm).getD (.prim nm)) =
        some (base.map (fun e =>
          ((p ++ ["[" ++ toString idx ++ "]"]) ++ e.1, e.2))) := by
      intro idx
      have h1 := resolve_shift types fuel ((lookupType types nm).getD (.prim nm))
        (p ++ ["[" ++ toString idx ++ "]"]) []
      rw [List.append_nil] at h1
      rw [h1, hbase]
      rfl
    show ((intRange lo hi).mapM (fun idx =>
        resolve_data_types types fuel (p ++ ["[" ++ toString idx ++ "]"])
          ((lookupType types nm).getD (.prim nm)))).map List.flatten = _
    rw [funext hpt, mapM_of_some]
    rfl
  · intro lo hi
    rw [intRange, List.length_map, List.length_range]

/-- C3, witness: the general array-expansion law applied to the
concrete `Array[1..3] of "Sensor"` declaration. -/
theorem c3_array_expansion_witness :
    resolve_data_types sensorTypes 5 ["Sensor"] (.arr 1 3 "Sensor") =
      some (((intRange 1 3).map (fun i =>
        [(["A"], "Bool"), (["B"], "Int")].map
          (fun e => ((["Sensor"] ++ ["[" ++ toString i ++ "]"]) ++ e.1, e.2)))).flatten) :=
  c3_array_expansion.1 sensorTypes 4 ["Sensor"] 1 3 "Sensor"
    [(["A"], "Bool"), (["B"], "Int")] (by decide)

/-- C4: set followed by get returns the value written, for every field
of the address index.  First conjunct: a scalar field of any of the
pipeline's scalar formats (`f d h i B H I c`; `Real`/`DReal` values are
their IEEE-754 bit patterns, see the file header), an in-bounds offset
and a value representable in the type.  Second conjunct: a packed
boolean at a bit position inside its 16-bit word, with the word inside
the buffer. -/
theorem c4_set_get_roundtrip :
    (∀ (buf : List Nat) (m : List (String × AddressInfo)) (name : String) (o : Nat)
      (fmt : String) (v : Int),
      dictGet m name = some ⟨.ofs o, fmt⟩ →
      fmt ∈ ["f", "d", "h", "i", "B", "H", "I", "c"] →
      o + struct_calcsize fmt ≤ buf.length →
      representable fmt v = true →
      ∃ buf2, setItem buf m name (.int v) = some buf2 ∧
        getItem buf2 m name = some (.int v)) ∧
    (∀ (buf : List Nat) (m : List (String × AddressInfo)) (name : String) (o bit : Nat)
      (v : Bool),
      dictGet m name = some ⟨.bits o bit, "H"⟩ →
      bit < 16 → o + 2 ≤ buf.length → (∀ x ∈ buf, x < 256) →
      ∃ buf2, setItem buf m name (.bool v) = some buf2 ∧
        getItem buf2 m name = some (.bool v)) := by
  constructor
  · intro buf m name o fmt v hget hfmt hbound hrep
    simp only [List.mem_cons, List.not_mem_nil, or_false] at hfmt
    rcases hfmt with rfl | rfl | rfl | rfl | rfl | rfl | rfl | rfl <;>
    · obtain ⟨bs, henc, hlen, hdec⟩ := decode_encodeScalar _ v (by decide) (by decide) hrep
      refine ⟨spliceBytes buf o bs, ?_, ?_⟩
      · simp only [setItem, hget]
        rw [henc]
      · simp only [getItem, hget]
        rw [← hlen, spliceBytes_read buf o bs (by omega), hdec]
  · intro buf m name o bit v hget hbit hbound hbytes
    obtain ⟨b0, b1, hslice, hb0, hb1⟩ := take_two_of_le buf o hbound
    have hb0lt := hbytes b0 hb0
    have hb1lt := hbytes b1 hb1
    have hcur : b0 + 256 * b1 < 2 ^ 16 := by omega
    set nw := (if v then (b0 + 256 * b1) ||| (1 <<< bit)
      else Nat.ldiff (b0 + 256 * b1) (1 <<< bit)) with hnw
    have hnwlt : nw < 2 ^ 16 := by
      rw [hnw]
      cases v with
      | true => simpa using or_bit_lt_two_pow (b0 + 256 * b1) bit hcur hbit
      | false => simpa using ldiff_lt_two_pow (b0 + 256 * b1) (1 <<< bit) hcur
    refine ⟨spliceBytes buf o [nw % 256, nw / 256], ?_, ?_⟩
    · simp [setItem, hget, hslice, truthy]
      rw [← hnw]
      omega
    · have hread := spliceBytes_read buf o [nw % 256, nw / 256] (by omega)
      have hlen2 : ([nw % 256, nw / 256] : List Nat).length = 2 := rfl
      rw [hlen2] at hread
      simp [getItem, hget, hread]
      have htb : nw.testBit bit = v := by
        rw [hnw]
        cases v with
        | true => simp [testBit_set_self]
        | false => simp [testBit_clear_self]
      have hword : nw % 256 + 256 * (nw / 256) = nw := by omega
      rw [hword]
      rw [Nat.testBit_to_div_mod] at htb
      rw [Nat.shiftRight_eq_div_pow]
      rcases Nat.mod_two_eq_zero_or_one (nw / 2 ^ bit) with h2 | h2 <;>
        rw [h2] at htb ⊢ <;> simpa using htb

/-- C4, witness: round trip of the Int16 field `d` (value -5) and of the
packed boolean `b` in the a/b/c/d scenario block. -/
theorem c4_set_get_roundtrip_witness :
    (∃ buf2, setItem [0, 0, 0, 0] abcdMapping "d" (.int (-5)) = some buf2 ∧
      getItem buf2 abcdMapping "d" = some (.int (-5))) ∧
    (∃ buf2, setItem [0, 0, 0, 0] abcdMapping "b" (.bool true) = some buf2 ∧
      getItem buf2 abcdMapping "b" = some (.bool true)) :=
  ⟨c4_set_get_roundtrip.1 [0, 0, 0, 0] abcdMapping "d" 2 "h" (-5) (by decide) (by decide)
      (by decide) (by decide),
    c4_set_get_roundtrip.2 [0, 0, 0, 0] abcdMapping "b" 0 1 true (by decide) (by decide)
      (by decide) (by decide)⟩

theorem getItem_bits (buf : List Nat) (m : List (String × AddressInfo)) (name : String)
    (o bit b0 b1 : Nat) (hget : dictGet m name = some ⟨.bits o bit, "H"⟩)
    (hslice : (buf.drop o).take 2 = [b0, b1]) :
    getItem buf m name = some (.bool ((b0 + 256 * b1).testBit bit)) := by
  simp [getItem, hget, hslice]
  rw [Nat.shiftRight_eq_div_pow, Nat.testBit_to_div_mod]
  rcases Nat.mod_two_eq_zero_or_one ((b0 + 256 * b1) / 2 ^ bit) with h | h <;> rw [h] <;> rfl

/-- C5: a successful set of a packed boolean (bit position inside the
word, word inside the buffer) changes at most the addressed bit: the
buffer keeps its length, every byte outside `[o, o+2)` is unchanged,
and every other boolean addressed in the same 2-byte word reads the
same value before and after. -/
theorem c5_bit_set_frame :
    ∀ (buf buf2 : List Nat) (m : List (String × AddressInfo)) (name : String) (o bit : Nat)
      (v : PyVal),
      dictGet m name = some ⟨.bits o bit, "H"⟩ →
      bit < 16 → o + 2 ≤ buf.length →
      setItem buf m name v = some buf2 →
      buf2.length = buf.length ∧
      (∀ j : Nat, j < o ∨ o + 2 ≤ j → buf2[j]? = buf[j]?) ∧
      (∀ (name2 : String) (bit2 : Nat), bit2 ≠ bit →
        dictGet m name2 = some ⟨.bits o bit2, "H"⟩ →
        getItem buf2 m name2 = getItem buf m name2) := by
  intro buf buf2 m name o bit v hget hbit hbound hset
  obtain ⟨b0, b1, hslice, hb0, hb1⟩ := take_two_of_le buf o hbound
  set nw := (if truthy v = true then (b0 + 256 * b1) ||| (1 <<< bit)
    else Nat.ldiff (b0 + 256 * b1) (1 <<< bit)) with hnw
  simp [setItem, hget, hslice] at hset
  rw [← hnw] at hset
  obtain ⟨hlt, hbuf2⟩ := hset
  have hlen2 : ([nw % 256, nw / 256] : List Nat).length = 2 := rfl
  refine ⟨?_, ?_, ?_⟩
  · rw [← hbuf2]
    apply spliceBytes_length
    rw [hlen2]
    omega
  · intro j hj
    rw [← hbuf2]
    apply spliceBytes_outside
    · rw [hlen2]
      omega
    · rw [hlen2]
      exact hj
  · intro name2 bit2 hne hget2
    have hread : (buf2.drop o).take 2 = [nw % 256, nw / 256] := by
      rw [← hbuf2]
      have := spliceBytes_read buf o [nw % 256, nw / 256] (by omega)
      rw [hlen2] at this
      exact this
    rw [getItem_bits buf2 m name2 o bit2 (nw % 256) (nw / 256) hget2 hread,
      getItem_bits buf m name2 o bit2 b0 b1 hget2 hslice]
    have hword : nw % 256 + 256 * (nw / 256) = nw := by omega
    rw [hword]
    have htb : nw.testBit bit2 = (b0 + 256 * b1).testBit bit2 := by
      rw [hnw]
      cases htr : truthy v <;>
        simp [testBit_set_other (b0 + 256 * b1) bit bit2 hne,
          testBit_clear_other (b0 + 256 * b1) bit bit2 hne]
    rw [htb]

/-- C5, witness: setting `a` in the scenario block keeps the length and
leaves byte 2 (part of the scalar `d`) and the co-packed boolean `b`
unchanged. -/
theorem c5_bit_set_frame_witness :
    ([1, 0, 0, 0] : List Nat).length = ([0, 0, 0, 0] : List Nat).length ∧
    ([1, 0, 0, 0] : List Nat)[2]? = ([0, 0, 0, 0] : List Nat)[2]? ∧
    getItem [1, 0, 0, 0] abcdMapping "b" = getItem [0, 0, 0, 0] abcdMapping "b" :=
  ⟨(c5_bit_set_frame [0, 0, 0, 0] [1, 0, 0, 0] abcdMapping "a" 0 0 (.bool true) (by decide)
      (by decide) (by decide) (by decide)).1,
    (c5_bit_set_frame [0, 0, 0, 0] [1, 0, 0, 0] abcdMapping "a" 0 0 (.bool true) (by decide)
      (by decide) (by decide) (by decide)).2.1 2 (Or.inr (by decide)),
    (c5_bit_set_frame [0, 0, 0, 0] [1, 0, 0, 0] abcdMapping "a" 0 0 (.bool true) (by decide)
      (by decide) (by decide) (by decide)).2.2 "b" 1 (by decide) (by decide)⟩

theorem sumWidths_append (l1 l2 : List DBField) :
    sumWidths (l1 ++ l2) = sumWidths l1 + sumWidths l2 := by
  simp [sumWidths]

/-- C10: for a field list whose boolean groups carry the packed-word
format `H` (as every group the layout generator emits does), the index
built by `fields_to_mapping` places the fields consecutively from
offset 0 - every entry's byte address is the sum of the widths of the
fields before its field - and the returned size is the sum of all field
widths; consequently every scalar entry satisfies
`offset + width ≤ size` and every bit entry has format `H` and
satisfies `byte_offset + 2 ≤ size`, so all accesses through an index
built by `from_fields` stay inside the allocated buffer. -/
theorem c10_mapping_bounds :
    ∀ fields : List DBField,
      (∀ f ∈ fields, isGroupField f = true → f.format = "H") →
      (fields_to_mapping fields).2 = sumWidths fields ∧
      (∀ e ∈ (fields_to_mapping fields).1, ∃ pre f suf,
        fields = pre ++ f :: suf ∧ e.2.format = f.format ∧ entryAddr e = sumWidths pre) ∧
      (∀ (nm : String) (o : Nat) (c : String),
        (nm, ⟨.ofs o, c⟩) ∈ (fields_to_mapping fields).1 →
        o + struct_calcsize c ≤ (fields_to_mapping fields).2) ∧
      (∀ (nm : String) (o bit : Nat) (c : String),
        (nm, ⟨.bits o bit, c⟩) ∈ (fields_to_mapping fields).1 →
        c = "H" ∧ o + 2 ≤ (fields_to_mapping fields).2) := by
  intro fields hG
  have hsnd : (fields_to_mapping fields).2 = sumWidths fields := by
    rw [fields_to_mapping, fields_to_mapping_loop_snd]
    omega
  refine ⟨hsnd, ?_, ?_, ?_⟩
  · intro e he
    rcases fields_to_mapping_loop_mem fields [] 0 e he with h | ⟨pre, f, suf, hfs, hsh⟩
    · simp at h
    · refine ⟨pre, f, suf, hfs, ?_⟩
      rcases hsh with ⟨nm, hno, he2⟩ | ⟨names, bitp, nm, hno, hpair, he2⟩ <;>
        rw [he2] <;> exact ⟨rfl, by simp [entryAddr]⟩
  · intro nm o c hmem
    rcases fields_to_mapping_loop_mem fields [] 0 _ hmem with h | ⟨pre, f, suf, hfs, hsh⟩
    · simp at h
    · rcases hsh with ⟨nm2, hno, he2⟩ | ⟨names, bitp, nm2, hno, hpair, he2⟩
      · simp only [Prod.mk.injEq, AddressInfo.mk.injEq, PyAddr.ofs.injEq] at he2
        obtain ⟨rfl, ⟨rfl, rfl⟩⟩ := he2
        rw [hsnd, hfs, sumWidths_append, sumWidths_cons]
        omega
      · simp only [Prod.mk.injEq, AddressInfo.mk.injEq] at he2
        exact absurd he2.2.1 (by simp)
  · intro nm o bit c hmem
    rcases fields_to_mapping_loop_mem fields [] 0 _ hmem with h | ⟨pre, f, suf, hfs, hsh⟩
    · simp at h
    · rcases hsh with ⟨nm2, hno, he2⟩ | ⟨names, bitp, nm2, hno, hpair, he2⟩
      · simp only [Prod.mk.injEq, AddressInfo.mk.injEq] at he2
        exact absurd he2.2.1 (by simp)
      · simp only [Prod.mk.injEq, AddressInfo.mk.injEq, PyAddr.bits.injEq] at he2
        obtain ⟨rfl, ⟨⟨rfl, rfl⟩, rfl⟩⟩ := he2
        have hfmt : f.format = "H" :=
          hG f (hfs ▸ List.mem_append_right pre (List.mem_cons_self f suf))
            (by simp [isGroupField, hno])
        refine ⟨hfmt, ?_⟩
        rw [hsnd, hfs, sumWidths_append, sumWidths_cons, hfmt]
        have hcs : struct_calcsize "H" = 2 := rfl
        omega

/-- C10, witness: the scenario block's two fields get size 4 = 2 + 2 and
the scalar entry for `d` fits inside it. -/
theorem c10_mapping_bounds_witness :
    (fields_to_mapping abcdFields).2 = sumWidths abcdFields ∧
    2 + struct_calcsize "h" ≤ (fields_to_mapping abcdFields).2 :=
  ⟨(c10_mapping_bounds abcdFields (by decide)).1,
    (c10_mapping_bounds abcdFields (by decide)).2.2.1 "d" 2 "h" (by decide)⟩
